import Mathlib

/-!
Verification of the `bd_dataset_001` repository against its specification.

Part 1 models `FastBuffer`
(src/085709-High_performance_move_only_buffer_with_manual_swap/repository_after/FastBuffer.hpp),
a move-only owning wrapper around a heap allocation.  The C++ object state is
the pair of members `data_` (a pointer, modelled as `Option Nat`) and
`size_`.  Because move assignment may be called with `this == &other`
(self-move), the operations are modelled over an explicit store of buffer
objects indexed by `Nat`, so that aliased reads and writes behave exactly as
the sequence of member accesses in the C++ bodies.  The heap is modelled
explicitly (a liveness flag per allocation plus a fresh-id counter) so that
`delete[]` and `new int[n]` are visible effects.

Part 2 models `ScalarIntegrityService::verify_stochastic_harmony`, in both its
refactored form (repository_after) and its original polymorphic form
(repository_before), and proves them equivalent and equal to the
power-of-two predicate.
-/

namespace FastBufferModel

/-- The member state of one `FastBuffer` object: `data_` (a pointer, held as
the identity of a heap allocation, with the null pointer as `none`) and
`size_`. -/
structure Buffer where
  data : Option Nat
  size : Nat
deriving DecidableEq, Repr

/-- Whole-program state: the constructed `FastBuffer` objects indexed by
object identity (an id maps to `none` when no object lives there), the next
fresh allocation id handed out by `new int[n]`, and which allocations are
currently live (not yet `delete[]`d). -/
structure ProgState where
  bufs : Nat → Option Buffer
  heapNext : Nat
  heapLive : Nat → Bool

/-- Pointwise update of a map, used for stores and heap flags. -/
def upd {α : Type} (f : Nat → α) (i : Nat) (v : α) : Nat → α :=
  fun j => if j = i then v else f j

theorem upd_same {α : Type} (f : Nat → α) (i : Nat) (v : α) : upd f i v i = v := by
  simp [upd]

theorem upd_other {α : Type} (f : Nat → α) (i j : Nat) (v : α) (h : j ≠ i) :
    upd f i v j = f j := by
  simp [upd, h]

/-- Read the members of the object at `i` (meaningful only when an object
lives at `i`; every operation below is guarded by that precondition). -/
def readBuf (st : ProgState) (i : Nat) : Buffer :=
  (st.bufs i).getD ⟨none, 0⟩

/-- Overwrite the members of the object at `i`. -/
def writeBuf (st : ProgState) (i : Nat) (b : Buffer) : ProgState :=
  { st with bufs := upd st.bufs i (some b) }

/-- Effect of `delete[] p`: a no-op on a null pointer, otherwise the
allocation stops being live.  (`delete[]` does not touch any member.) -/
def freeAlloc (st : ProgState) : Option Nat → ProgState
  | none => st
  | some a => { st with heapLive := upd st.heapLive a false }

/-- `FastBuffer() noexcept : data_(nullptr), size_(0) {}` — constructs a new
object at the (previously unoccupied) id `i`. -/
def defaultCtor (st : ProgState) (i : Nat) : ProgState :=
  writeBuf st i ⟨none, 0⟩

/-- `explicit FastBuffer(std::size_t size) : data_(size ? new int[size] : nullptr),
size_(size) {}` — for `size ≠ 0` a fresh allocation is made live. -/
def sizedCtor (st : ProgState) (i : Nat) (size : Nat) : ProgState :=
  if size = 0 then
    writeBuf st i ⟨none, size⟩
  else
    let a := st.heapNext
    let st1 : ProgState :=
      { st with heapNext := st.heapNext + 1, heapLive := upd st.heapLive a true }
    writeBuf st1 i ⟨some a, size⟩

/-- `FastBuffer(FastBuffer&& other) noexcept : data_(other.data_),
size_(other.size_) { other.data_ = nullptr; other.size_ = 0; }` — the new
object at `i` is distinct from `other` (a constructor initialises fresh
storage), so no aliasing is possible here. -/
def moveCtor (st : ProgState) (i src : Nat) : ProgState :=
  let st1 := writeBuf st i ⟨(readBuf st src).data, (readBuf st src).size⟩
  writeBuf st1 src ⟨none, 0⟩

/-- `FastBuffer& operator=(FastBuffer&& other) noexcept` — the body is the
exact statement sequence of the source, each statement reading the store left
by the previous one, so `tgt = src` (self-move) is modelled faithfully:

  delete[] data_;
  data_ = other.data_;
  size_ = other.size_;
  other.data_ = nullptr;
  other.size_ = 0;  -/
def moveAssign (st : ProgState) (tgt src : Nat) : ProgState :=
  let st1 := freeAlloc st (readBuf st tgt).data
  let st2 := writeBuf st1 tgt { readBuf st1 tgt with data := (readBuf st1 src).data }
  let st3 := writeBuf st2 tgt { readBuf st2 tgt with size := (readBuf st2 src).size }
  let st4 := writeBuf st3 src { readBuf st3 src with data := none }
  writeBuf st4 src { readBuf st4 src with size := 0 }

/-- `~FastBuffer() noexcept { delete[] data_; }` — the object then stops
existing. -/
def destroy (st : ProgState) (i : Nat) : ProgState :=
  let st1 := freeAlloc st (readBuf st i).data
  { st1 with bufs := upd st1.bufs i none }

/-- `static FastBuffer&& move(FastBuffer& obj) noexcept
{ return static_cast<FastBuffer&&>(obj); }` — a pure cast: the state is
untouched and the returned reference designates the same object. -/
def move (st : ProgState) (i : Nat) : ProgState × Nat :=
  (st, i)

/-- `int* data() noexcept { return data_; }` (and its `const` overload). -/
def dataAcc (st : ProgState) (i : Nat) : Option Nat :=
  (readBuf st i).data

/-- `std::size_t size() const noexcept { return size_; }` -/
def sizeAcc (st : ProgState) (i : Nat) : Nat :=
  (readBuf st i).size

/-- The program state before any object exists: no buffers, no allocations. -/
def initState : ProgState :=
  { bufs := fun _ => none, heapNext := 0, heapLive := fun _ => false }

/-- One public operation of the class, applied at ids where it is legal C++:
constructors need an unoccupied id, assignment and destruction need live
objects.  Move assignment allows `tgt = src` (self-move). -/
inductive Step : ProgState → ProgState → Prop where
  | defaultCtor (st : ProgState) (i : Nat) :
      st.bufs i = none → Step st (defaultCtor st i)
  | sizedCtor (st : ProgState) (i : Nat) (n : Nat) :
      st.bufs i = none → Step st (sizedCtor st i n)
  | moveCtor (st : ProgState) (i src : Nat) (b : Buffer) :
      st.bufs i = none → st.bufs src = some b → Step st (moveCtor st i src)
  | moveAssign (st : ProgState) (tgt src : Nat) (bt bs : Buffer) :
      st.bufs tgt = some bt → st.bufs src = some bs → Step st (moveAssign st tgt src)
  | destroy (st : ProgState) (i : Nat) (b : Buffer) :
      st.bufs i = some b → Step st (destroy st i)

/-- States reachable from the empty program state by public operations. -/
def Reachable (st : ProgState) : Prop :=
  Relation.ReflTransGen Step initState st

theorem upd_upd {α : Type} (f : Nat → α) (i : Nat) (v w : α) :
    upd (upd f i v) i w = upd f i w := by
  funext j; by_cases hj : j = i <;> simp [upd, hj]

theorem freeAlloc_bufs (st : ProgState) (o : Option Nat) :
    (freeAlloc st o).bufs = st.bufs := by
  cases o <;> rfl

theorem freeAlloc_heapNext (st : ProgState) (o : Option Nat) :
    (freeAlloc st o).heapNext = st.heapNext := by
  cases o <;> rfl

/-- Running the five statements of `operator=` with `this == &other` frees the
object's allocation (the unconditional `delete[] data_`) and, because the
trailing `other.data_ = nullptr; other.size_ = 0;` write through the alias,
leaves the object empty. -/
theorem moveAssign_self_eq (st : ProgState) (i : Nat) (b : Buffer)
    (h : st.bufs i = some b) :
    moveAssign st i i =
      { freeAlloc st b.data with bufs := upd st.bufs i (some ⟨none, 0⟩) } := by
  have hb : readBuf st i = b := by simp [readBuf, h]
  unfold moveAssign
  simp [writeBuf, readBuf, freeAlloc_bufs, hb, upd_same, upd_upd, h]

/-- Running the five statements of `operator=` on distinct objects frees the
target's old allocation, transfers the source's members to the target, and
empties the source. -/
theorem moveAssign_ne_eq (st : ProgState) (tgt src : Nat) (bt bs : Buffer)
    (hne : tgt ≠ src) (ht : st.bufs tgt = some bt) (hs : st.bufs src = some bs) :
    moveAssign st tgt src =
      { freeAlloc st bt.data with
        bufs := upd (upd st.bufs tgt (some ⟨bs.data, bs.size⟩)) src (some ⟨none, 0⟩) } := by
  have hbt : readBuf st tgt = bt := by simp [readBuf, ht]
  unfold moveAssign
  simp [writeBuf, readBuf, freeAlloc_bufs, hbt, upd_same, upd_upd,
    upd_other _ tgt src _ (Ne.symm hne), upd_other _ src tgt _ hne, hs, ht]

/-- The move constructor builds the new object from the source's members and
empties the source (the constructed object is at a fresh id, so `i ≠ src`). -/
theorem moveCtor_eq (st : ProgState) (i src : Nat) (bs : Buffer)
    (hs : st.bufs src = some bs) :
    moveCtor st i src =
      { st with bufs := upd (upd st.bufs i (some ⟨bs.data, bs.size⟩)) src (some ⟨none, 0⟩) } := by
  have hbs : readBuf st src = bs := by simp [readBuf, hs]
  unfold moveCtor
  simp [writeBuf, readBuf, hs]

/-- A concrete program state: one buffer at id 0 owning live allocation 0 with
size 3 (the state reached by `FastBuffer buf(3);`). -/
def exSt : ProgState :=
  { bufs := upd (fun _ => none) 0 (some ⟨some 0, 3⟩),
    heapNext := 1,
    heapLive := upd (fun _ => false) 0 true }

/-- C1: for every buffer, after self-move-assignment (`A = move(A)`) the
object is in a state where either nothing changed (pointer and size identical
to before) or it is fully empty (null pointer, size 0); in this implementation
the second branch always holds, so it is never left dangling or with a
mismatched pointer/size pair. -/
theorem self_move_unchanged_or_empty (st : ProgState) (i : Nat) (b : Buffer)
    (h : st.bufs i = some b) :
    (moveAssign st i i).bufs i = st.bufs i ∨
      (moveAssign st i i).bufs i = some ⟨none, 0⟩ := by
  right
  rw [moveAssign_self_eq st i b h]
  simp [upd_same]

theorem self_move_unchanged_or_empty_witness :
    (moveAssign exSt 0 0).bufs 0 = exSt.bufs 0 ∨
      (moveAssign exSt 0 0).bufs 0 = some ⟨none, 0⟩ :=
  self_move_unchanged_or_empty exSt 0 ⟨some 0, 3⟩ rfl

/-- C2 counterexample: at the concrete state `exSt` (buffer 0 owns live
allocation 0), self-move-assignment does free the allocation owned at entry —
the unconditional `delete[] data_` runs before the transfer — contradicting
the claim that it is not freed. -/
theorem self_move_frees_counterexample :
    exSt.bufs 0 = some ⟨some 0, 3⟩ ∧ exSt.heapLive 0 = true ∧
      (moveAssign exSt 0 0).heapLive 0 = false := by
  refine ⟨rfl, rfl, ?_⟩
  rfl

/-- C2 amended: during self-move-assignment the implementation does release
the allocation owned at entry (the unconditional `delete[] data_`), but the
subsequent writes through the alias null the pointer and zero the size, so the
object ends validly empty rather than holding the freed pointer. -/
theorem self_move_frees_entry_allocation (st : ProgState) (i : Nat)
    (b : Buffer) (a : Nat) (h : st.bufs i = some b) (hd : b.data = some a) :
    (moveAssign st i i).heapLive a = false ∧
      (moveAssign st i i).bufs i = some ⟨none, 0⟩ := by
  rw [moveAssign_self_eq st i b h, hd]
  exact ⟨by simp [freeAlloc, upd_same], by simp [upd_same]⟩

theorem self_move_frees_entry_allocation_witness :
    (moveAssign exSt 0 0).heapLive 0 = false ∧
      (moveAssign exSt 0 0).bufs 0 = some ⟨none, 0⟩ :=
  self_move_frees_entry_allocation exSt 0 ⟨some 0, 3⟩ 0 rfl rfl

/-- C5: sized construction with count `n` yields a buffer of size `n` whose
pointer is null exactly when `n = 0`, and constructing with `n = 0` produces
the very same program state as the empty constructor (no allocation). -/
theorem sizedCtor_spec (st : ProgState) (i : Nat) (n : Nat) :
    (∃ b : Buffer, (sizedCtor st i n).bufs i = some b ∧ b.size = n ∧
      (b.data = none ↔ n = 0)) ∧
    sizedCtor st i 0 = defaultCtor st i := by
  constructor
  · by_cases hn : n = 0
    · exact ⟨⟨none, n⟩, by simp [sizedCtor, hn, writeBuf, upd_same], rfl, by simp [hn]⟩
    · exact ⟨⟨some st.heapNext, n⟩, by simp [sizedCtor, hn, writeBuf, upd_same], rfl,
        by simp [hn]⟩
  · rfl

theorem sizedCtor_bufs (st : ProgState) (i : Nat) (n : Nat) (hn : n ≠ 0) :
    (sizedCtor st i n).bufs = upd st.bufs i (some ⟨some st.heapNext, n⟩) := by
  simp [sizedCtor, hn, writeBuf]

theorem sizedCtor_heapNext (st : ProgState) (i : Nat) (n : Nat) (hn : n ≠ 0) :
    (sizedCtor st i n).heapNext = st.heapNext + 1 := by
  simp [sizedCtor, hn, writeBuf]

/-- The inductive invariant of the class: every live object's pointer is null
exactly when its size is 0; every held allocation id was issued by the
allocator (is below the fresh counter); and no two distinct live objects hold
the same allocation. -/
structure Inv (st : ProgState) : Prop where
  nullSize : ∀ i b, st.bufs i = some b → (b.data = none ↔ b.size = 0)
  fresh : ∀ i b a, st.bufs i = some b → b.data = some a → a < st.heapNext
  unique : ∀ i j bi bj a, i ≠ j → st.bufs i = some bi → st.bufs j = some bj →
      bi.data = some a → bj.data = some a → False

theorem inv_initState : Inv initState := by
  refine ⟨?_, ?_, ?_⟩ <;> intro i <;> simp [initState]

/-- Ownership transfer (shared shape of the move constructor and of move
assignment between distinct objects) preserves the invariant: the receiver
`i` takes the members of the source `src`, the source becomes empty, and the
fresh counter is unchanged. -/
theorem inv_transfer (st st' : ProgState) (i src : Nat) (bs : Buffer)
    (hne : i ≠ src) (hs : st.bufs src = some bs) (hInv : Inv st)
    (hbufs : st'.bufs = upd (upd st.bufs i (some ⟨bs.data, bs.size⟩)) src (some ⟨none, 0⟩))
    (hnext : st'.heapNext = st.heapNext) : Inv st' := by
  have read : ∀ j : Nat, st'.bufs j =
      if j = src then some ⟨none, 0⟩
      else if j = i then some ⟨bs.data, bs.size⟩ else st.bufs j := by
    intro j
    by_cases hjs : j = src
    · simp [hbufs, hjs, upd_same]
    · by_cases hji : j = i <;> simp [hbufs, upd, hjs, hji]
  refine ⟨?_, ?_, ?_⟩
  · intro j b hj
    rw [read j] at hj
    by_cases hjs : j = src
    · simp [hjs] at hj; simp [← hj]
    · by_cases hji : j = i
      · simp [hjs, hji, hne] at hj
        have := hInv.nullSize src bs hs
        simp [← hj, this]
      · simp [hjs, hji] at hj
        exact hInv.nullSize j b hj
  · intro j b a hj hd
    rw [read j] at hj
    rw [hnext]
    by_cases hjs : j = src
    · simp [hjs] at hj; rw [← hj] at hd; simp at hd
    · by_cases hji : j = i
      · simp [hjs, hji, hne] at hj
        rw [← hj] at hd
        exact hInv.fresh src bs a hs hd
      · simp [hjs, hji] at hj
        exact hInv.fresh j b a hj hd
  · intro j k bj bk a hjk hj hk hdj hdk
    rw [read j] at hj
    rw [read k] at hk
    by_cases hjs : j = src
    · simp [hjs] at hj; rw [← hj] at hdj; simp at hdj
    · by_cases hks : k = src
      · simp [hks] at hk; rw [← hk] at hdk; simp at hdk
      · by_cases hji : j = i
        · simp [hjs, hji, hne] at hj
          rw [← hj] at hdj
          by_cases hki : k = i
          · exact hjk (hji.trans hki.symm)
          · simp [hks, hki] at hk
            exact hInv.unique src k bs bk a (fun hsk => hks (hsk.symm)) hs hk hdj hdk
        · simp [hjs, hji] at hj
          by_cases hki : k = i
          · simp [hks, hki, hne] at hk
            rw [← hk] at hdk
            exact hInv.unique j src bj bs a hjs hj hs hdj hdk
          · simp [hks, hki] at hk
            exact hInv.unique j k bj bk a hjk hj hk hdj hdk

/-- Every public operation preserves the invariant. -/
theorem inv_step (st st' : ProgState) (h : Step st st') (hInv : Inv st) : Inv st' := by
  cases h with
  | defaultCtor i hi =>
    refine ⟨?_, ?_, ?_⟩
    · intro j b hj
      by_cases hji : j = i
      · simp [defaultCtor, writeBuf, upd, hji] at hj; simp [← hj]
      · simp [defaultCtor, writeBuf, upd, hji] at hj
        exact hInv.nullSize j b hj
    · intro j b a hj hd
      by_cases hji : j = i
      · simp [defaultCtor, writeBuf, upd, hji] at hj; rw [← hj] at hd; simp at hd
      · simp [defaultCtor, writeBuf, upd, hji] at hj
        exact hInv.fresh j b a hj hd
    · intro j k bj bk a hjk hj hk hdj hdk
      by_cases hji : j = i
      · simp [defaultCtor, writeBuf, upd, hji] at hj; rw [← hj] at hdj; simp at hdj
      · by_cases hki : k = i
        · simp [defaultCtor, writeBuf, upd, hki] at hk; rw [← hk] at hdk; simp at hdk
        · simp [defaultCtor, writeBuf, upd, hji] at hj
          simp [defaultCtor, writeBuf, upd, hki] at hk
          exact hInv.unique j k bj bk a hjk hj hk hdj hdk
  | sizedCtor i n hi =>
    by_cases hn : n = 0
    · subst hn
      refine ⟨?_, ?_, ?_⟩
      · intro j b hj
        by_cases hji : j = i
        · simp [sizedCtor, writeBuf, upd, hji] at hj; simp [← hj]
        · simp [sizedCtor, writeBuf, upd, hji] at hj
          exact hInv.nullSize j b hj
      · intro j b a hj hd
        by_cases hji : j = i
        · simp [sizedCtor, writeBuf, upd, hji] at hj; rw [← hj] at hd; simp at hd
        · simp [sizedCtor, writeBuf, upd, hji] at hj
          exact hInv.fresh j b a hj hd
      · intro j k bj bk a hjk hj hk hdj hdk
        by_cases hji : j = i
        · simp [sizedCtor, writeBuf, upd, hji] at hj; rw [← hj] at hdj; simp at hdj
        · by_cases hki : k = i
          · simp [sizedCtor, writeBuf, upd, hki] at hk; rw [← hk] at hdk; simp at hdk
          · simp [sizedCtor, writeBuf, upd, hji] at hj
            simp [sizedCtor, writeBuf, upd, hki] at hk
            exact hInv.unique j k bj bk a hjk hj hk hdj hdk
    · refine ⟨?_, ?_, ?_⟩
      · intro j b hj
        rw [sizedCtor_bufs st i n hn] at hj
        by_cases hji : j = i
        · simp [upd, hji] at hj; simp [← hj, hn]
        · simp [upd, hji] at hj
          exact hInv.nullSize j b hj
      · intro j b a hj hd
        rw [sizedCtor_bufs st i n hn] at hj
        rw [sizedCtor_heapNext st i n hn]
        by_cases hji : j = i
        · simp [upd, hji] at hj
          rw [← hj] at hd
          simp at hd
          omega
        · simp [upd, hji] at hj
          have := hInv.fresh j b a hj hd
          omega
      · intro j k bj bk a hjk hj hk hdj hdk
        rw [sizedCtor_bufs st i n hn] at hj hk
        by_cases hji : j = i
        · by_cases hki : k = i
          · exact hjk (hji.trans hki.symm)
          · simp [upd, hji] at hj
            simp [upd, hki] at hk
            rw [← hj] at hdj
            simp at hdj
            have := hInv.fresh k bk a hk hdk
            omega
        · by_cases hki : k = i
          · simp [upd, hji] at hj
            simp [upd, hki] at hk
            rw [← hk] at hdk
            simp at hdk
            have := hInv.fresh j bj a hj hdj
            omega
          · simp [upd, hji] at hj
            simp [upd, hki] at hk
            exact hInv.unique j k bj bk a hjk hj hk hdj hdk
  | moveCtor i src b hi hs =>
    have hne : i ≠ src := by
      intro hisrc
      rw [hisrc, hs] at hi
      exact Option.noConfusion hi
    exact inv_transfer st _ i src b hne hs hInv
      (by rw [moveCtor_eq st i src b hs]) (by rw [moveCtor_eq st i src b hs])
  | moveAssign tgt src bt bs ht hs =>
    by_cases hne : tgt = src
    · subst hne
      refine ⟨?_, ?_, ?_⟩
      · intro j bj hj
        rw [moveAssign_self_eq st tgt bt ht] at hj
        by_cases hji : j = tgt
        · simp [upd, hji] at hj; simp [← hj]
        · simp [upd, hji] at hj
          exact hInv.nullSize j bj hj
      · intro j bj a hj hd
        rw [moveAssign_self_eq st tgt bt ht] at hj
        rw [moveAssign_self_eq st tgt bt ht]
        simp only [freeAlloc_heapNext]
        by_cases hji : j = tgt
        · simp [upd, hji] at hj; rw [← hj] at hd; simp at hd
        · simp [upd, hji] at hj
          exact hInv.fresh j bj a hj hd
      · intro j k bj bk a hjk hj hk hdj hdk
        rw [moveAssign_self_eq st tgt bt ht] at hj hk
        by_cases hji : j = tgt
        · simp [upd, hji] at hj; rw [← hj] at hdj; simp at hdj
        · by_cases hki : k = tgt
          · simp [upd, hki] at hk; rw [← hk] at hdk; simp at hdk
          · simp [upd, hji] at hj
            simp [upd, hki] at hk
            exact hInv.unique j k bj bk a hjk hj hk hdj hdk
    · exact inv_transfer st _ tgt src bs hne hs hInv
        (by rw [moveAssign_ne_eq st tgt src bt bs hne ht hs])
        (by rw [moveAssign_ne_eq st tgt src bt bs hne ht hs]; simp [freeAlloc_heapNext])
  | destroy i b hi =>
    refine ⟨?_, ?_, ?_⟩
    · intro j bj hj
      by_cases hji : j = i
      · simp [destroy, upd, hji, freeAlloc_bufs] at hj
      · simp [destroy, upd, hji, freeAlloc_bufs] at hj
        exact hInv.nullSize j bj hj
    · intro j bj a hj hd
      by_cases hji : j = i
      · simp [destroy, upd, hji, freeAlloc_bufs] at hj
      · simp [destroy, upd, hji, freeAlloc_bufs] at hj
        simp [destroy, freeAlloc_heapNext]
        exact hInv.fresh j bj a hj hd
    · intro j k bj bk a hjk hj hk hdj hdk
      by_cases hji : j = i
      · simp [destroy, upd, hji, freeAlloc_bufs] at hj
      · by_cases hki : k = i
        · simp [destroy, upd, hki, freeAlloc_bufs] at hk
        · simp [destroy, upd, hji, freeAlloc_bufs] at hj
          simp [destroy, upd, hki, freeAlloc_bufs] at hk
          exact hInv.unique j k bj bk a hjk hj hk hdj hdk

/-- The invariant holds in every reachable state. -/
theorem inv_reachable (st : ProgState) (h : Reachable st) : Inv st := by
  induction h with
  | refl => exact inv_initState
  | tail _ hstep ih => exact inv_step _ _ hstep ih

/-- C3: in every state reachable by any sequence of the public operations
(empty construction, sized construction, move construction, move assignment,
destruction), every live buffer's data pointer is null if and only if its
size is 0. -/
theorem reachable_null_iff_size_zero (st : ProgState) (i : Nat) (b : Buffer)
    (hre : Reachable st) (h : st.bufs i = some b) : b.data = none ↔ b.size = 0 :=
  (inv_reachable st hre).nullSize i b h

theorem reachable_null_iff_size_zero_witness :
    (⟨none, 0⟩ : Buffer).data = none ↔ (⟨none, 0⟩ : Buffer).size = 0 :=
  reachable_null_iff_size_zero (defaultCtor initState 0) 0 ⟨none, 0⟩
    (Relation.ReflTransGen.single (Step.defaultCtor initState 0 rfl)) rfl

/-- A concrete reachable state with two owning buffers:
`FastBuffer a(2); FastBuffer b(3);` — buffer 0 owns allocation 0 (size 2) and
buffer 1 owns allocation 1 (size 3). -/
def twoBufSt : ProgState :=
  sizedCtor (sizedCtor initState 0 2) 1 3

theorem twoBufSt_reachable : Reachable twoBufSt :=
  Relation.ReflTransGen.tail
    (Relation.ReflTransGen.single (Step.sizedCtor initState 0 2 rfl))
    (Step.sizedCtor (sizedCtor initState 0 2) 1 3 rfl)

/-- C4: in every reachable state, at most one live buffer holds a non-null
pointer to any given allocation — a move (constructor or assignment) nulls
the source, so ownership is never shared between two live instances. -/
theorem reachable_unique_ownership (st : ProgState) (i j : Nat) (bi bj : Buffer)
    (a : Nat) (hre : Reachable st) (hij : i ≠ j) (hi : st.bufs i = some bi)
    (hj : st.bufs j = some bj) (ha : bi.data = some a) : bj.data ≠ some a :=
  fun hb => (inv_reachable st hre).unique i j bi bj a hij hi hj ha hb

theorem reachable_unique_ownership_witness :
    (⟨some 1, 3⟩ : Buffer).data ≠ some 0 :=
  reachable_unique_ownership twoBufSt 0 1 ⟨some 0, 2⟩ ⟨some 1, 3⟩ 0
    twoBufSt_reachable (by decide) rfl rfl rfl

/-- C6: for distinct buffers, both the move constructor and move assignment
transfer the source's pointer and size to the destination and leave the
source empty (null pointer, size 0); move assignment additionally releases
the allocation previously owned by the target. -/
theorem move_transfers_ownership (st : ProgState) (tgt src : Nat) (bt bs : Buffer)
    (hne : tgt ≠ src) (ht : st.bufs tgt = some bt) (hs : st.bufs src = some bs) :
    ((moveCtor st tgt src).bufs tgt = some ⟨bs.data, bs.size⟩ ∧
      (moveCtor st tgt src).bufs src = some ⟨none, 0⟩) ∧
    ((moveAssign st tgt src).bufs tgt = some ⟨bs.data, bs.size⟩ ∧
      (moveAssign st tgt src).bufs src = some ⟨none, 0⟩ ∧
      ∀ a : Nat, bt.data = some a → (moveAssign st tgt src).heapLive a = false) := by
  refine ⟨⟨?_, ?_⟩, ?_, ?_, ?_⟩
  · rw [moveCtor_eq st tgt src bs hs]
    simp [upd_other _ src tgt _ hne, upd_same]
  · rw [moveCtor_eq st tgt src bs hs]
    simp [upd_same]
  · rw [moveAssign_ne_eq st tgt src bt bs hne ht hs]
    simp [upd_other _ src tgt _ hne, upd_same]
  · rw [moveAssign_ne_eq st tgt src bt bs hne ht hs]
    simp [upd_same]
  · intro a ha
    rw [moveAssign_ne_eq st tgt src bt bs hne ht hs, ha]
    simp [freeAlloc, upd_same]

theorem move_transfers_ownership_witness :
    ((moveCtor twoBufSt 0 1).bufs 0 = some ⟨some 1, 3⟩ ∧
      (moveCtor twoBufSt 0 1).bufs 1 = some ⟨none, 0⟩) ∧
    ((moveAssign twoBufSt 0 1).bufs 0 = some ⟨some 1, 3⟩ ∧
      (moveAssign twoBufSt 0 1).bufs 1 = some ⟨none, 0⟩ ∧
      ∀ a : Nat, (⟨some 0, 2⟩ : Buffer).data = some a →
        (moveAssign twoBufSt 0 1).heapLive a = false) :=
  move_transfers_ownership twoBufSt 0 1 ⟨some 0, 2⟩ ⟨some 1, 3⟩ (by decide) rfl rfl

/-- The only failure the class can signal: `new int[n]` throwing
`std::bad_alloc` (out of memory) inside the sized constructor.  Every other
member function is `noexcept`. -/
inductive BufferError where
  | outOfMemory
deriving DecidableEq, Repr

/-- Sized construction with a fallible allocator: `data_(size ? new int[size]
: nullptr)`.  When `n ≠ 0` and the allocator cannot satisfy the request the
construction fails with `outOfMemory` and produces no instance (the error
carries no state); when `n = 0` no allocation is attempted. -/
def sizedCtorE (allocOk : Bool) (st : ProgState) (i n : Nat) :
    Except BufferError ProgState :=
  if n = 0 then Except.ok (writeBuf st i ⟨none, n⟩)
  else if allocOk then Except.ok (sizedCtor st i n)
  else Except.error BufferError.outOfMemory

/-- `FastBuffer() noexcept` lifted to the error monad: total. -/
def defaultCtorE (st : ProgState) (i : Nat) : Except BufferError ProgState :=
  Except.ok (defaultCtor st i)

/-- `FastBuffer(FastBuffer&&) noexcept` lifted to the error monad: total. -/
def moveCtorE (st : ProgState) (i src : Nat) : Except BufferError ProgState :=
  Except.ok (moveCtor st i src)

/-- `operator=(FastBuffer&&) noexcept` lifted to the error monad: total. -/
def moveAssignE (st : ProgState) (tgt src : Nat) : Except BufferError ProgState :=
  Except.ok (moveAssign st tgt src)

/-- `~FastBuffer() noexcept` lifted to the error monad: total. -/
def destroyE (st : ProgState) (i : Nat) : Except BufferError ProgState :=
  Except.ok (destroy st i)

/-- `data() noexcept` lifted to the error monad: total. -/
def dataAccE (st : ProgState) (i : Nat) : Except BufferError (Option Nat) :=
  Except.ok (dataAcc st i)

/-- `size() const noexcept` lifted to the error monad: total. -/
def sizeAccE (st : ProgState) (i : Nat) : Except BufferError Nat :=
  Except.ok (sizeAcc st i)

/-- C7: the only operation that can fail is sized construction — there is
exactly one error kind (`outOfMemory`), sized construction signals it exactly
when the allocator cannot satisfy a non-empty request (and then produces no
instance), and empty construction, move construction, move assignment,
destruction, `data()` and `size()` are total. -/
theorem only_sized_construction_fails (allocOk : Bool) (st : ProgState)
    (i src tgt n : Nat) :
    (∀ e : BufferError, e = BufferError.outOfMemory) ∧
    (sizedCtorE allocOk st i n = Except.error BufferError.outOfMemory ↔
      allocOk = false ∧ n ≠ 0) ∧
    (defaultCtorE st i).isOk = true ∧ (moveCtorE st i src).isOk = true ∧
    (moveAssignE st tgt src).isOk = true ∧ (destroyE st i).isOk = true ∧
    (dataAccE st i).isOk = true ∧ (sizeAccE st i).isOk = true := by
  refine ⟨fun e => by cases e; rfl, ?_, rfl, rfl, rfl, rfl, rfl, rfl⟩
  by_cases hn : n = 0
  · simp [sizedCtorE, hn]
  · cases allocOk <;> simp [sizedCtorE, hn]

/-- C10: the static helper `FastBuffer::move(a)` by itself does not modify
`a` — it is only an rvalue cast returning a reference to the same object, the
whole program state (in particular `a`'s pointer and size) being untouched —
and ownership is transferred only when the returned reference is subsequently
consumed, for example by move assignment into another buffer. -/
theorem move_is_pure_cast (st : ProgState) (i : Nat) :
    (move st i).1 = st ∧ (move st i).1.bufs i = st.bufs i ∧ (move st i).2 = i ∧
    (∀ tgt bt bs : _, tgt ≠ i → st.bufs tgt = some bt → st.bufs i = some bs →
      (moveAssign (move st i).1 tgt (move st i).2).bufs i = some ⟨none, 0⟩ ∧
      (moveAssign (move st i).1 tgt (move st i).2).bufs tgt =
        some ⟨bs.data, bs.size⟩) := by
  refine ⟨rfl, rfl, rfl, ?_⟩
  intro tgt bt bs hne ht hs
  constructor
  · show (moveAssign st tgt i).bufs i = some ⟨none, 0⟩
    rw [moveAssign_ne_eq st tgt i bt bs hne ht hs]
    simp [upd_same]
  · show (moveAssign st tgt i).bufs tgt = some ⟨bs.data, bs.size⟩
    rw [moveAssign_ne_eq st tgt i bt bs hne ht hs]
    simp [upd_other _ i tgt _ hne, upd_same]

theorem move_is_pure_cast_witness :
    (move twoBufSt 1).1 = twoBufSt ∧ (move twoBufSt 1).1.bufs 1 = twoBufSt.bufs 1 ∧
    (move twoBufSt 1).2 = 1 ∧
    ((moveAssign (move twoBufSt 1).1 0 (move twoBufSt 1).2).bufs 1 =
        some ⟨none, 0⟩ ∧
      (moveAssign (move twoBufSt 1).1 0 (move twoBufSt 1).2).bufs 0 =
        some ⟨some 1, 3⟩) := by
  obtain ⟨h1, h2, h3, h4⟩ := move_is_pure_cast twoBufSt 1
  exact ⟨h1, h2, h3, h4 0 ⟨some 0, 2⟩ ⟨some 1, 3⟩ (by decide) rfl rfl⟩

end FastBufferModel

namespace Validator

/-- The bit-decomposition loop of repository_before
`BitStreamEngine::decompose_to_binary_stream`:

  while (absolute_val > 0) {
      bool residue = (absolute_val % 2 != 0);
      container.push_back(residue);
      absolute_val >>= 1;
  }

Each iteration appends the least significant bit, so the resulting
`std::deque<bool>` is the LSB-first bit list built here. -/
def bitLoop (n : Nat) : List Bool :=
  if h : n = 0 then []
  else (n % 2 != 0) :: bitLoop (n / 2)
termination_by n
decreasing_by exact Nat.div_lt_self (Nat.pos_of_ne_zero h) Nat.one_lt_two

/-- `BitStreamEngine::decompose_to_binary_stream(long long val)`: returns
`{false}` for `val == 0`, otherwise runs the loop on `std::abs(val)`. -/
def decompose_to_binary_stream (val : Int) : List Bool :=
  if val = 0 then [false]
  else bitLoop val.natAbs

/-- `ValidationResultWrapper::InnerProxy` of repository_before. -/
structure InnerProxy where
  signal : Bool
  metadata : String

/-- `ValidationResultWrapper` of repository_before. -/
structure ValidationResultWrapper where
  proxy : InnerProxy

/-- `UnitarySetSignature::analyze` of repository_before: counts the set bits
of the stream (`non_zero_accumulator`) and signals exactly when the count is
one.  `ScalarIntegrityService` always instantiates `UnitarySetSignature` as
its `signature_engine`, so the virtual dispatch always lands here. -/
def UnitarySetSignature.analyze (bits : List Bool) : ValidationResultWrapper :=
  let non_zero_accumulator := bits.count true
  if non_zero_accumulator = 1 then
    ⟨⟨true, "Unitary pattern discovered."⟩⟩
  else
    ⟨⟨false, "Multi-modal or null entropy detected."⟩⟩

/-- `ScalarIntegrityService::verify_stochastic_harmony(long long value)` of
repository_before: non-positive scalars are discordant; otherwise the value
is decomposed into a bit stream which is analysed for the unitary-set
property. -/
def verify_stochastic_harmony_before (value : Int) : Bool :=
  if value ≤ 0 then false
  else (UnitarySetSignature.analyze (decompose_to_binary_stream value)).proxy.signal

/-- `ScalarIntegrityService::verify_stochastic_harmony(int64_t value)` of
repository_after:

  if (value <= 0) return false;
  return (value & (value - 1)) == 0;  -/
def verify_stochastic_harmony (value : Int) : Bool :=
  if value ≤ 0 then false
  else Int.land value (value - 1) == 0

theorem land_odd_even (a b : Nat) : (2 * a + 1) &&& (2 * b) = 2 * (a &&& b) := by
  have h := Nat.land_bit true a false b
  simpa [Nat.bit_val] using h

theorem land_even_odd (a b : Nat) : (2 * a) &&& (2 * b + 1) = 2 * (a &&& b) := by
  have h := Nat.land_bit false a true b
  simpa [Nat.bit_val] using h

theorem two_mul_pow_iff (m : Nat) (hm : 0 < m) :
    (∃ k, 2 * m = 2 ^ k) ↔ ∃ k, m = 2 ^ k := by
  constructor
  · rintro ⟨k, hk⟩
    cases k with
    | zero => omega
    | succ k =>
      refine ⟨k, ?_⟩
      rw [pow_succ] at hk
      omega
  · rintro ⟨k, hk⟩
    refine ⟨k + 1, ?_⟩
    rw [pow_succ]
    omega

/-- The classic bit trick: for positive `n`, `n & (n - 1)` vanishes exactly
when `n` is a power of two. -/
theorem land_pred_eq_zero_iff (n : Nat) (hn : 0 < n) :
    n &&& (n - 1) = 0 ↔ ∃ k, n = 2 ^ k := by
  induction n using Nat.strong_induction_on with
  | _ n ih =>
    rcases Nat.even_or_odd n with he | ho
    · obtain ⟨m, hm⟩ := he
      have hm2 : n = 2 * m := by omega
      subst hm2
      have hmpos : 0 < m := by omega
      have hpred : 2 * m - 1 = 2 * (m - 1) + 1 := by omega
      rw [hpred, land_even_odd m (m - 1)]
      have hrec := ih m (by omega) hmpos
      rw [two_mul_pow_iff m hmpos, ← hrec]
      omega
    · obtain ⟨m, hm⟩ := ho
      subst hm
      have hpred : 2 * m + 1 - 1 = 2 * m := by omega
      rw [hpred, land_odd_even m m, Nat.and_self]
      constructor
      · intro h0
        exact ⟨0, by omega⟩
      · rintro ⟨k, hk⟩
        cases k with
        | zero => omega
        | succ k =>
          rw [pow_succ] at hk
          omega

theorem bitLoop_even (n : Nat) (h : n ≠ 0) (hmod : n % 2 = 0) :
    bitLoop n = false :: bitLoop (n / 2) := by
  rw [bitLoop]
  simp [h, hmod]

theorem bitLoop_odd (n : Nat) (hmod : n % 2 = 1) :
    bitLoop n = true :: bitLoop (n / 2) := by
  have h : n ≠ 0 := by omega
  rw [bitLoop]
  simp [h, hmod]

theorem count_true_cons_true (l : List Bool) :
    (true :: l).count true = l.count true + 1 := by
  simp [List.count_cons]

theorem count_true_cons_false (l : List Bool) :
    (false :: l).count true = l.count true := by
  simp [List.count_cons]

/-- The loop leaves no set bit exactly on input 0. -/
theorem bitLoop_count_eq_zero (n : Nat) : (bitLoop n).count true = 0 ↔ n = 0 := by
  induction n using Nat.strong_induction_on with
  | _ n ih =>
    by_cases h : n = 0
    · subst h
      simp [bitLoop]
    · rcases Nat.even_or_odd n with he | ho
      · obtain ⟨m, hm⟩ := he
        have hm2 : n = 2 * m := by omega
        subst hm2
        have hmod : 2 * m % 2 = 0 := by omega
        have hdiv : 2 * m / 2 = m := by omega
        rw [bitLoop_even _ h hmod, hdiv, count_true_cons_false]
        rw [ih m (by omega)]
        omega
      · obtain ⟨m, hm⟩ := ho
        subst hm
        have hmod : (2 * m + 1) % 2 = 1 := by omega
        have hdiv : (2 * m + 1) / 2 = m := by omega
        rw [bitLoop_odd _ hmod, hdiv, count_true_cons_true]
        omega

/-- The loop finds exactly one set bit exactly on the powers of two. -/
theorem bitLoop_count_eq_one_iff (n : Nat) (hn : 0 < n) :
    (bitLoop n).count true = 1 ↔ ∃ k, n = 2 ^ k := by
  induction n using Nat.strong_induction_on with
  | _ n ih =>
    have h : n ≠ 0 := by omega
    rcases Nat.even_or_odd n with he | ho
    · obtain ⟨m, hm⟩ := he
      have hm2 : n = 2 * m := by omega
      subst hm2
      have hmpos : 0 < m := by omega
      have hmod : 2 * m % 2 = 0 := by omega
      have hdiv : 2 * m / 2 = m := by omega
      rw [bitLoop_even _ h hmod, hdiv, count_true_cons_false]
      rw [ih m (by omega) hmpos]
      exact (two_mul_pow_iff m hmpos).symm
    · obtain ⟨m, hm⟩ := ho
      subst hm
      have hmod : (2 * m + 1) % 2 = 1 := by omega
      have hdiv : (2 * m + 1) / 2 = m := by omega
      rw [bitLoop_odd _ hmod, hdiv, count_true_cons_true]
      constructor
      · intro h1
        have h0 : (bitLoop m).count true = 0 := by omega
        have hm0 : m = 0 := (bitLoop_count_eq_zero m).1 h0
        exact ⟨0, by omega⟩
      · rintro ⟨k, hk⟩
        cases k with
        | zero =>
          have hm0 : m = 0 := by omega
          have h0 : (bitLoop m).count true = 0 := (bitLoop_count_eq_zero m).2 hm0
          omega
        | succ k =>
          rw [pow_succ] at hk
          omega

/-- The boolean signal produced by `UnitarySetSignature::analyze` is exactly
the test `non_zero_accumulator == 1`. -/
theorem analyze_signal (bits : List Bool) :
    (UnitarySetSignature.analyze bits).proxy.signal = (bits.count true == 1) := by
  by_cases h : bits.count true = 1 <;> simp [UnitarySetSignature.analyze, h]

/-- On positive inputs the refactored function tests `n & (n - 1) == 0`. -/
theorem verify_after_pos_iff (v : Int) (hv : 0 < v) :
    verify_stochastic_harmony v = true ↔ ∃ k, v.toNat = 2 ^ k := by
  have hle : ¬ v ≤ 0 := by omega
  have hn : 0 < v.toNat := by omega
  simp only [verify_stochastic_harmony, hle, if_false, beq_iff_eq]
  obtain ⟨n, rfl⟩ : ∃ n : Nat, v = (n : Int) := ⟨v.toNat, by omega⟩
  have h1 : (n : Int) - 1 = ((n - 1 : Nat) : Int) := by omega
  rw [h1]
  have h2 : Int.land (n : Int) ((n - 1 : Nat) : Int) = ((n &&& (n - 1) : Nat) : Int) := rfl
  rw [h2]
  rw [show ((n : Int)).toNat = n from by omega]
  have hbridge : ((n &&& (n - 1) : Nat) : Int) = 0 ↔ (n &&& (n - 1)) = 0 := by omega
  rw [hbridge]
  exact land_pred_eq_zero_iff n (by omega)

/-- On positive inputs the original polymorphic pipeline signals exactly when
the decomposed bit stream has a single set bit. -/
theorem verify_before_pos_iff (v : Int) (hv : 0 < v) :
    verify_stochastic_harmony_before v = true ↔ ∃ k, v.toNat = 2 ^ k := by
  have hle : ¬ v ≤ 0 := by omega
  have hv0 : ¬ v = 0 := by omega
  simp only [verify_stochastic_harmony_before, hle, if_false,
    decompose_to_binary_stream, hv0]
  have habs : v.natAbs = v.toNat := by omega
  rw [habs, analyze_signal (bitLoop v.toNat), beq_iff_eq]
  exact bitLoop_count_eq_one_iff v.toNat (by omega)

/-- C9: `ScalarIntegrityService::verify_stochastic_harmony` (repository_after)
is a power-of-two predicate: for every int64_t value it returns true if and
only if the value is `2 ^ k` for some `k ≥ 0`; in particular it returns false
for every value `≤ 0`. -/
theorem verify_power_of_two_spec (v : Int) (hlo : -(2 ^ 63) ≤ v) (hhi : v < 2 ^ 63) :
    (verify_stochastic_harmony v = true ↔ ∃ k : Nat, v = 2 ^ k) ∧
    (v ≤ 0 → verify_stochastic_harmony v = false) := by
  constructor
  · by_cases hv : 0 < v
    · rw [verify_after_pos_iff v hv]
      constructor
      · rintro ⟨k, hk⟩
        refine ⟨k, ?_⟩
        have hc : ((2 : Int)) ^ k = ((2 ^ k : Nat) : Int) := by push_cast; ring
        rw [hc]
        omega
      · rintro ⟨k, hk⟩
        refine ⟨k, ?_⟩
        have hc : ((2 : Int)) ^ k = ((2 ^ k : Nat) : Int) := by push_cast; ring
        rw [hc] at hk
        omega
    · push_neg at hv
      have hfalse : verify_stochastic_harmony v = false := by
        simp [verify_stochastic_harmony, hv]
      rw [hfalse]
      simp only [Bool.false_eq_true, false_iff]
      rintro ⟨k, hk⟩
      have hp : (0 : Int) < 2 ^ k := by positivity
      omega
  · intro hv
    simp [verify_stochastic_harmony, hv]

theorem verify_power_of_two_spec_witness :
    (verify_stochastic_harmony 4 = true ↔ ∃ k : Nat, (4 : Int) = 2 ^ k) ∧
    ((4 : Int) ≤ 0 → verify_stochastic_harmony 4 = false) :=
  verify_power_of_two_spec 4 (by norm_num) (by norm_num)

/-- C8: for every int64_t input, the refactored constexpr
`verify_stochastic_harmony` (repository_after) returns the same boolean as
the original polymorphic implementation (repository_before), which decomposes
the value into a bit stream and reports whether exactly one bit is set. -/
theorem refactored_equals_original (v : Int) (hlo : -(2 ^ 63) ≤ v)
    (hhi : v < 2 ^ 63) :
    verify_stochastic_harmony v = verify_stochastic_harmony_before v := by
  by_cases hv : 0 < v
  · have h1 := verify_after_pos_iff v hv
    have h2 := verify_before_pos_iff v hv
    cases hA : verify_stochastic_harmony v <;>
      cases hB : verify_stochastic_harmony_before v <;> simp_all
  · push_neg at hv
    simp [verify_stochastic_harmony, verify_stochastic_harmony_before, hv]

theorem refactored_equals_original_witness :
    verify_stochastic_harmony 6 = verify_stochastic_harmony_before 6 :=
  refactored_equals_original 6 (by norm_num) (by norm_num)

end Validator
